import Mathlib

/-!
Shallow embedding of `aethersync_edgar_ingest.py`, a daily EDGAR index
ingest pipeline: locate today's compressed index, download it, decompress,
parse pipe-delimited lines into filing records, and insert each record into
a document store after fetching its full text, deduplicating by accession.

Python string primitives (`strip`, `split`, `replace`) are modelled
character-exactly on `List Char`; network and clock effects are passed in
as explicit oracles; the Mongo collection is a list of documents; the
top-level try/except of `main` is an `Except` that is mapped back to a
normal return.
-/

set_option autoImplicit false

namespace EdgarIngest

/-! ### Configuration constants (from the CONFIG section of the source) -/

def BASE_URL : String := "https://www.sec.gov/Archives/edgar/daily-index"

def TARGET_FORMS : List String := ["10-K", "10-Q", "13F", "13D", "4"]

/-! ### Python string primitives -/

/-- Characters removed by Python's `str.strip()` with no argument. -/
def isPySpace (c : Char) : Bool :=
  c == ' ' || c == '\t' || c == '\n' || c == '\r' || c == '\x0b' || c == '\x0c'

/-- Python `str.strip()` on a character list: drop whitespace from both ends. -/
def pyStripL (l : List Char) : List Char :=
  ((l.dropWhile isPySpace).reverse.dropWhile isPySpace).reverse

def pyStrip (s : String) : String :=
  String.mk (pyStripL s.data)

/-- Python `str.split(c)` for a one-character separator: no merging of empty
fields, and the result is never empty (`"".split(c) == [""]`). -/
def splitOnChar (c : Char) : List Char → List (List Char)
  | [] => [[]]
  | a :: as =>
    if a == c then [] :: splitOnChar c as
    else
      match splitOnChar c as with
      | [] => [[a]]
      | s :: rest => (a :: s) :: rest

def pySplit (c : Char) (s : String) : List String :=
  (splitOnChar c s.data).map String.mk

/-- Python `filename.split('/')[-1]`: the last path segment (`split` never
returns an empty list, so Python's `[-1]` is total here). -/
def lastSegment (s : String) : String :=
  (pySplit '/' s).getLastD ""

/-- Python `str.replace(".txt", "")`: remove every occurrence of `.txt`,
scanning left to right without overlap, exactly as Python does. -/
def pyRemoveTxt : List Char → List Char
  | '.' :: 't' :: 'x' :: 't' :: rest => pyRemoveTxt rest
  | c :: rest => c :: pyRemoveTxt rest
  | [] => []

def pyReplaceTxt (s : String) : String :=
  String.mk (pyRemoveTxt s.data)

/-- Modelled from the spec's words, for comparison with the source's
`replace`: strip one fixed trailing `.txt` suffix and nothing else. -/
def specStripTxtSuffix (s : String) : String :=
  if s.data.drop (s.data.length - 4) = ('.' :: 't' :: 'x' :: 't' :: []) then
    String.mk (s.data.take (s.data.length - 4))
  else s

/-! ### Data model: filing records and the document store -/

/-- A filing record, as built by `parse_idx` and enriched by
`insert_unique` (the Python dict; `ingested_at` and `raw_text` are absent
until the store writer sets them). -/
structure Filing where
  cik : String
  company : String
  form_type : String
  date_filed : String
  accession : String
  file_url : String
  ingested_at : Option Nat := none
  raw_text : Option String := none
deriving DecidableEq

/-! ### Index parser (`parse_idx`) -/

/-- The five trimmed fields of one index line:
`line.strip().split('|')`, each part stripped. -/
def pyFields (line : String) : List String :=
  (pySplit '|' (pyStrip line)).map pyStrip

/-- The body of the `for line in f` loop of `parse_idx`: at most one
record per line. -/
def parseLine (line : String) : List Filing :=
  if '|' ∈ line.data then
    match pyFields line with
    | [cik, company, form, date_filed, filename] =>
      if form ∈ TARGET_FORMS then
        [{ cik := cik, company := company, form_type := form,
           date_filed := date_filed,
           accession := pyReplaceTxt (lastSegment filename),
           file_url := "https://www.sec.gov/Archives/" ++ filename }]
      else []
    | _ => []
  else []

/-- The function `parse_idx`, with the file contents given as its list of lines. -/
def parse_idx : List String → List Filing
  | [] => []
  | line :: rest => parseLine line ++ parse_idx rest

/-! ### Index locator (`get_today_idx_url`) -/

structure Date where
  year : Nat
  month : Nat
  day : Nat
deriving DecidableEq

/-- A two-digit zero-padded decimal field, as produced by `strftime`'s
`%m` / `%d` for in-range values. -/
def pad2 (n : Nat) : String :=
  String.mk [Nat.digitChar (n / 10 % 10), Nat.digitChar (n % 10)]

/-- A four-digit decimal field, as produced by `strftime`'s `%Y` for
years between 1000 and 9999. -/
def pad4 (n : Nat) : String :=
  String.mk [Nat.digitChar (n / 1000 % 10), Nat.digitChar (n / 100 % 10),
             Nat.digitChar (n / 10 % 10), Nat.digitChar (n % 10)]

/-- Python `today.strftime('%Y%m%d')`. -/
def dateYYYYMMDD (d : Date) : String :=
  pad4 d.year ++ pad2 d.month ++ pad2 d.day

/-- The locator `get_today_idx_url`, with the clock's date passed explicitly. -/
def get_today_idx_url (d : Date) : String × String :=
  let quarter := "QTR" ++ toString ((d.month - 1) / 3 + 1)
  let filename := "master." ++ dateYYYYMMDD d ++ ".idx.gz"
  (BASE_URL ++ "/" ++ toString d.year ++ "/" ++ quarter ++ "/" ++ filename,
   filename)

/-! ### Fetcher (`download_gz`, `fetch_filing_text`) -/

/-- An HTTP response for the streamed archive download: a status code and
the sequence of body chunks yielded by `iter_content`. -/
structure HttpResp where
  status : Nat
  chunks : List (List Nat)
deriving DecidableEq

/-- The outcome of `requests.get` for a text fetch: either a response
with a status and textual body, or a transport-level exception. -/
inductive HttpResult where
  | resp (status : Nat) (body : String)
  | exn (msg : String)
deriving DecidableEq

/-- The downloader `download_gz`: raise unless the status is 200, otherwise write the
chunks to the destination file. The destination file's content is an
`Option (List Nat)` (`none` = not written); on the raising path it is
returned untouched, since the exception fires before the file is opened. -/
def download_gz (resp : HttpResp) (dest : Option (List Nat)) :
    Except String Unit × Option (List Nat) :=
  if resp.status ≠ 200 then
    (Except.error ("Download failed with status " ++ toString resp.status), dest)
  else
    (Except.ok (), some resp.chunks.flatten)

/-- The text fetcher `fetch_filing_text`: the body on status 200, `None` on any other
status, `None` on a transport exception; never raises. -/
def fetch_filing_text : HttpResult → Option String
  | HttpResult.resp status body => if status = 200 then some body else none
  | HttpResult.exn _ => none

/-! ### Deduplicating store writer (`insert_unique`) -/

/-- Observable effects of one `insert_unique` call, in program order:
the `find_one` duplicate check, the `ingested_at` stamp, the text fetch,
and the `insert_one`. -/
inductive Ev where
  | checkedDup (accession : String)
  | stamped (t : Nat)
  | fetchedText (url : String)
  | insertedDoc (accession : String)
deriving DecidableEq

structure InsertOutcome where
  record : Filing
  store : List Filing
  inserted : Bool
  trace : List Ev
deriving DecidableEq

/-- The store writer `insert_unique`: check-then-insert keyed on `accession`. The filing
dict is mutated in place (the returned `record`); `now` is the value of
`datetime.datetime.utcnow()`; `fetch` is the network oracle behind
`fetch_filing_text` (already composed, `None` = no text). Python's
`if text:` is false for both `None` and the empty string. -/
def insert_unique (now : Nat) (fetch : String → Option String)
    (filing : Filing) (store : List Filing) : InsertOutcome :=
  if ∃ d ∈ store, d.accession = filing.accession then
    ⟨filing, store, false, [Ev.checkedDup filing.accession]⟩
  else
    let filing1 := { filing with ingested_at := some now }
    match fetch filing1.file_url with
    | some t =>
      if t ≠ "" then
        let filing2 := { filing1 with raw_text := some t }
        ⟨filing2, store ++ [filing2], true,
          [Ev.checkedDup filing.accession, Ev.stamped now,
           Ev.fetchedText filing1.file_url, Ev.insertedDoc filing2.accession]⟩
      else
        ⟨filing1, store, false,
          [Ev.checkedDup filing.accession, Ev.stamped now,
           Ev.fetchedText filing1.file_url]⟩
    | none =>
      ⟨filing1, store, false,
        [Ev.checkedDup filing.accession, Ev.stamped now,
         Ev.fetchedText filing1.file_url]⟩

/-- The `for filing in filings` loop of `main`: fold `insert_unique`
over the parsed records, threading the store and counting inserts. -/
def processFilings (now : Nat) (fetch : String → Option String) :
    List Filing → List Filing → List Filing × Nat
  | [], store => (store, 0)
  | f :: rest, store =>
    let o := insert_unique now fetch f store
    let r := processFilings now fetch rest o.store
    (r.1, (if o.inserted then 1 else 0) + r.2)

/-- How many documents of the store carry a given accession. -/
def countAcc (a : String) (store : List Filing) : Nat :=
  store.countP (fun d => d.accession == a)

/-! ### Pipeline driver (`main`) -/

/-- The pipeline's environment: the clock's date and timestamp, the HTTP
response for the index archive, the gzip decompressor (library code,
taken as an oracle from file bytes to index lines or an extraction
error), and the per-URL outcome of the text-fetch requests. -/
structure Env where
  today : Date
  idxResp : HttpResp
  gunzip : Option (List Nat) → Except String (List String)
  textResp : String → HttpResult
  now : Nat

/-- The body of `main`'s `try` block: locate, download, decompress,
parse, then insert each record. Any raising stage short-circuits as an
`Except.error`. -/
def pipelineBody (env : Env) (store : List Filing) :
    Except String (List Filing × Nat) :=
  let _located := get_today_idx_url env.today
  match download_gz env.idxResp none with
  | (Except.error e, _) => Except.error e
  | (Except.ok _, gzFile) =>
    match env.gunzip gzFile with
    | Except.error e => Except.error e
    | Except.ok lines =>
      let filings := parse_idx lines
      Except.ok (processFilings env.now
        (fun url => fetch_filing_text (env.textResp url)) filings store)

/-- The driver `main`: the `try` body with its top-level `except` — every escaping
exception is converted into a normal return carrying the logged message,
and the function's result is the final store, the new-filing count, and
the fatal log entry (if any). -/
def main (env : Env) (store : List Filing) :
    List Filing × Nat × Option String :=
  match pipelineBody env store with
  | Except.ok (s, c) => (s, c, none)
  | Except.error e => (store, 0, some e)

/-! ### Concrete fixtures used by witnesses and counterexamples -/

def testFiling : Filing :=
  { cik := "0001", company := "Acme Co", form_type := "10-K",
    date_filed := "2024-01-05", accession := "acme-10k",
    file_url := "https://www.sec.gov/Archives/edgar/data/1/acme-10k.txt" }

def mixedTxtLine : String := "1|A|10-K|2024-01-05|edgar/data/1/a.txtb.txt"

def envDown404 : Env :=
  ⟨⟨2024, 1, 1⟩, ⟨404, []⟩, fun _ => Except.ok [],
   fun _ => HttpResult.exn "boom", 0⟩

def envOk : Env :=
  ⟨⟨2024, 1, 1⟩, ⟨200, [[31, 139]]⟩,
   fun _ => Except.ok ["0001|Acme Co|10-K|2024-01-05|edgar/data/1/acme-10k.txt"],
   fun _ => HttpResult.exn "timeout", 5⟩

/-! ### Helper lemmas on the string primitives -/

theorem splitOnChar_ne_nil (c : Char) (l : List Char) : splitOnChar c l ≠ [] := by
  cases l with
  | nil => simp [splitOnChar]
  | cons a as =>
    unfold splitOnChar
    by_cases h : (a == c) = true
    · simp [h]
    · rw [if_neg h]
      cases hs : splitOnChar c as <;> simp

theorem mem_of_two_le_splitOnChar_length (c : Char) :
    ∀ l : List Char, 2 ≤ (splitOnChar c l).length → c ∈ l := by
  intro l
  induction l with
  | nil => intro h; simp [splitOnChar] at h
  | cons a as ih =>
    intro h
    by_cases hac : (a == c) = true
    · have ha : a = c := by simpa using hac
      simp [ha]
    · unfold splitOnChar at h
      rw [if_neg hac] at h
      cases hs : splitOnChar c as with
      | nil => exact absurd hs (splitOnChar_ne_nil c as)
      | cons s rest =>
        rw [hs] at h
        simp only [List.length_cons] at h
        have h2 : 2 ≤ (splitOnChar c as).length := by
          rw [hs]; simp only [List.length_cons]; omega
        exact List.mem_cons_of_mem a (ih h2)

theorem mem_of_mem_pyStripL {x : Char} {l : List Char} (h : x ∈ pyStripL l) :
    x ∈ l := by
  unfold pyStripL at h
  rw [List.mem_reverse] at h
  have h1 := (List.dropWhile_sublist (l := (l.dropWhile isPySpace).reverse)
    isPySpace).subset h
  rw [List.mem_reverse] at h1
  exact (List.dropWhile_sublist (l := l) isPySpace).subset h1

theorem pipe_mem_of_pyFields (line : String) (parts : List String)
    (h : pyFields line = parts) (h5 : parts.length = 5) : '|' ∈ line.data := by
  have hlen : (splitOnChar '|' (pyStrip line).data).length = 5 := by
    have := congrArg List.length h
    simpa [pyFields, pySplit, h5] using this
  have hmem : '|' ∈ (pyStrip line).data :=
    mem_of_two_le_splitOnChar_length '|' (pyStrip line).data (by omega)
  exact mem_of_mem_pyStripL hmem

theorem digitChar_isDigit_of_lt {n : Nat} (h : n < 10) :
    (Nat.digitChar n).isDigit = true := by
  interval_cases n <;> decide

/-! ### Claim theorems: parser and locator -/

/-- C3 (counterexample to the claim as stated): on the index line
`"1|A|10-K|2024-01-05|edgar/data/1/a.txtb.txt"`, whose filename's last
path segment is `a.txtb.txt`, the parser emits accession `"ab"` —
Python's `replace('.txt', '')` removes every occurrence — whereas the
last segment with only its trailing `.txt` suffix stripped is
`"a.txtb"`. -/
theorem C3_counterexample :
    (parse_idx [mixedTxtLine]).map Filing.accession = ["ab"] ∧
    specStripTxtSuffix (lastSegment "edgar/data/1/a.txtb.txt") = "a.txtb" ∧
    ("ab" : String) ≠ "a.txtb" := by
  refine ⟨by decide, by decide, by decide⟩

/-- C3 (amended): for every index line whose five trimmed pipe-delimited
fields have a form type in the accepted set, `parse_idx` emits exactly
one record; its `accession` is the filename field's last path segment
with every occurrence of `.txt` removed (left-to-right, as Python's
`str.replace` does — not only a trailing suffix), and its `file_url` is
the fixed archive root prefixed to the filename field. -/
theorem C3_parser_acceptance (line cik company form date_filed filename : String)
    (hfields : pyFields line = [cik, company, form, date_filed, filename])
    (hform : form ∈ TARGET_FORMS) :
    parse_idx [line] =
      [{ cik := cik, company := company, form_type := form,
         date_filed := date_filed,
         accession := pyReplaceTxt (lastSegment filename),
         file_url := "https://www.sec.gov/Archives/" ++ filename }] := by
  have hpipe : '|' ∈ line.data :=
    pipe_mem_of_pyFields line _ hfields (by simp)
  simp [parse_idx, parseLine, hpipe, hfields, hform]

/-- C3 witness: the spec's own scenario line is parsed into the expected
single record. -/
theorem C3_witness :
    parse_idx ["0001|Acme Co|10-K|2024-01-05|edgar/data/1/acme-10k.txt"] =
      [{ cik := "0001", company := "Acme Co", form_type := "10-K",
         date_filed := "2024-01-05", accession := "acme-10k",
         file_url := "https://www.sec.gov/Archives/" ++
           "edgar/data/1/acme-10k.txt" }] :=
  C3_parser_acceptance "0001|Acme Co|10-K|2024-01-05|edgar/data/1/acme-10k.txt"
    "0001" "Acme Co" "10-K" "2024-01-05" "edgar/data/1/acme-10k.txt"
    (by decide) (by decide)

/-- C4: an index line with no pipe delimiter, or whose trimmed split is
not exactly five fields, or whose form-type field is outside the
accepted set, contributes no record — and `parse_idx` is a total
function, so no error is raised for such a line. -/
theorem C4_parser_rejection (line : String)
    (h : '|' ∉ line.data ∨ (pyFields line).length ≠ 5 ∨
      (∀ cik company form date_filed filename,
        pyFields line = [cik, company, form, date_filed, filename] →
        form ∉ TARGET_FORMS)) :
    parse_idx [line] = [] := by
  have hnil : parseLine line = [] := by
    unfold parseLine
    by_cases hp : '|' ∈ line.data
    · rw [if_pos hp]
      rcases h with h | h | h
      · exact absurd hp h
      · rcases hf : pyFields line with
          _ | ⟨c1, _ | ⟨c2, _ | ⟨c3, _ | ⟨c4, _ | ⟨c5, _ | ⟨c6, tl⟩⟩⟩⟩⟩⟩ <;>
          simp_all
      · rcases hf : pyFields line with
          _ | ⟨c1, _ | ⟨c2, _ | ⟨c3, _ | ⟨c4, _ | ⟨c5, _ | ⟨c6, tl⟩⟩⟩⟩⟩⟩ <;>
          first | rfl | exact if_neg (h _ _ _ _ _ hf)
    · rw [if_neg hp]
  simp [parse_idx, hnil]

/-- C4 witness: the spec's 8-K scenario line (form type outside the
accepted set) is rejected. -/
theorem C4_witness :
    parse_idx ["0002|Beta Inc|8-K|2024-01-05|edgar/data/2/beta-8k.txt"] = [] :=
  C4_parser_rejection "0002|Beta Inc|8-K|2024-01-05|edgar/data/2/beta-8k.txt"
    (Or.inr (Or.inr (by
      intro c1 c2 c3 c4 c5 hf
      have hev : pyFields "0002|Beta Inc|8-K|2024-01-05|edgar/data/2/beta-8k.txt" =
          ["0002", "Beta Inc", "8-K", "2024-01-05", "edgar/data/2/beta-8k.txt"] := by
        decide
      have := hev.symm.trans hf
      simp only [List.cons.injEq, and_true] at this
      obtain ⟨h1, h2, h3, h4, h5⟩ := this
      subst h3
      decide)))

/-- C5: for every in-range date, the locator's URL is the directory path
`<root>/<year>/QTR<q>` with `q = (month-1)/3 + 1`, `q` lies in `{1,2,3,4}`
and brackets the month (`3*(q-1)+1 ≤ month ≤ 3*q`), and the filename is
`master.<YYYYMMDD>.idx.gz` whose date part is exactly 8 decimal digits. -/
theorem C5_index_locator (d : Date) (q : Nat)
    (hq : q = (d.month - 1) / 3 + 1)
    (hy1 : 1000 ≤ d.year) (hy2 : d.year ≤ 9999)
    (hm1 : 1 ≤ d.month) (hm2 : d.month ≤ 12)
    (hd1 : 1 ≤ d.day) (hd2 : d.day ≤ 31) :
    1 ≤ q ∧ q ≤ 4 ∧ 3 * (q - 1) + 1 ≤ d.month ∧ d.month ≤ 3 * q ∧
    (get_today_idx_url d).1 =
      BASE_URL ++ "/" ++ toString d.year ++ "/" ++ ("QTR" ++ toString q) ++
        "/" ++ (get_today_idx_url d).2 ∧
    (get_today_idx_url d).2 = "master." ++ dateYYYYMMDD d ++ ".idx.gz" ∧
    (dateYYYYMMDD d).length = 8 ∧
    (dateYYYYMMDD d).data.all Char.isDigit = true := by
  obtain ⟨y, m, dy⟩ := d
  simp only at hm1 hm2 hy1 hy2 hq ⊢
  have hdigit : ∀ n : Nat, (Nat.digitChar (n % 10)).isDigit = true := fun n =>
    digitChar_isDigit_of_lt (Nat.mod_lt _ (by decide))
  subst hq
  refine ⟨?_, ?_, ?_, ?_, rfl, rfl, ?_, ?_⟩
  · omega
  · interval_cases m <;> decide
  · interval_cases m <;> decide
  · interval_cases m <;> decide
  · simp [dateYYYYMMDD, pad4, pad2, String.length_append]
  · simp [dateYYYYMMDD, pad4, pad2, String.data_append, hdigit]

/-- C5 witness: the locator output for 2024-10-12. -/
theorem C5_witness :
    1 ≤ 4 ∧ 4 ≤ 4 ∧ 3 * (4 - 1) + 1 ≤ (Date.mk 2024 10 12).month ∧
    (Date.mk 2024 10 12).month ≤ 3 * 4 ∧
    (get_today_idx_url ⟨2024, 10, 12⟩).1 =
      BASE_URL ++ "/" ++ toString (Date.mk 2024 10 12).year ++ "/" ++
        ("QTR" ++ toString 4) ++ "/" ++ (get_today_idx_url ⟨2024, 10, 12⟩).2 ∧
    (get_today_idx_url ⟨2024, 10, 12⟩).2 =
      "master." ++ dateYYYYMMDD ⟨2024, 10, 12⟩ ++ ".idx.gz" ∧
    (dateYYYYMMDD ⟨2024, 10, 12⟩).length = 8 ∧
    (dateYYYYMMDD ⟨2024, 10, 12⟩).data.all Char.isDigit = true :=
  C5_index_locator ⟨2024, 10, 12⟩ 4 (by decide) (by decide) (by decide)
    (by decide) (by decide) (by decide) (by decide)

/-! ### Helper lemmas on the store writer -/

theorem insert_unique_dup (now : Nat) (fetch : String → Option String)
    (f : Filing) (s : List Filing)
    (h : ∃ d ∈ s, d.accession = f.accession) :
    insert_unique now fetch f s = ⟨f, s, false, [Ev.checkedDup f.accession]⟩ := by
  simp [insert_unique, h]

theorem insert_unique_absent_none (now : Nat) (fetch : String → Option String)
    (f : Filing) (s : List Filing)
    (h : ¬ ∃ d ∈ s, d.accession = f.accession) (hf : fetch f.file_url = none) :
    insert_unique now fetch f s =
      ⟨{ f with ingested_at := some now }, s, false,
       [Ev.checkedDup f.accession, Ev.stamped now, Ev.fetchedText f.file_url]⟩ := by
  simp [insert_unique, h, hf]

theorem insert_unique_absent_empty (now : Nat) (fetch : String → Option String)
    (f : Filing) (s : List Filing)
    (h : ¬ ∃ d ∈ s, d.accession = f.accession) (hf : fetch f.file_url = some "") :
    insert_unique now fetch f s =
      ⟨{ f with ingested_at := some now }, s, false,
       [Ev.checkedDup f.accession, Ev.stamped now, Ev.fetchedText f.file_url]⟩ := by
  simp [insert_unique, h, hf]

theorem insert_unique_absent_text (now : Nat) (fetch : String → Option String)
    (f : Filing) (s : List Filing) (t : String)
    (h : ¬ ∃ d ∈ s, d.accession = f.accession)
    (hf : fetch f.file_url = some t) (ht : t ≠ "") :
    insert_unique now fetch f s =
      ⟨{ f with ingested_at := some now, raw_text := some t },
       s ++ [{ f with ingested_at := some now, raw_text := some t }], true,
       [Ev.checkedDup f.accession, Ev.stamped now, Ev.fetchedText f.file_url,
        Ev.insertedDoc f.accession]⟩ := by
  simp [insert_unique, h, hf, ht]

/-- The store after one `insert_unique` call is either untouched, or
extended by exactly one document whose accession is the filing's and was
not previously present. -/
theorem insert_unique_store_cases (now : Nat) (fetch : String → Option String)
    (f : Filing) (s : List Filing) :
    (insert_unique now fetch f s).store = s ∨
    ((insert_unique now fetch f s).store =
        s ++ [(insert_unique now fetch f s).record] ∧
      (insert_unique now fetch f s).record.accession = f.accession ∧
      ¬ ∃ d ∈ s, d.accession = f.accession) := by
  by_cases h : ∃ d ∈ s, d.accession = f.accession
  · rw [insert_unique_dup now fetch f s h]; exact Or.inl rfl
  · cases hf : fetch f.file_url with
    | none => rw [insert_unique_absent_none now fetch f s h hf]; exact Or.inl rfl
    | some t =>
      by_cases ht : t = ""
      · subst ht
        rw [insert_unique_absent_empty now fetch f s h hf]; exact Or.inl rfl
      · rw [insert_unique_absent_text now fetch f s t h hf ht]
        exact Or.inr ⟨rfl, rfl, h⟩

theorem countAcc_insert_le (now : Nat) (fetch : String → Option String)
    (f : Filing) (s : List Filing) (a : String) :
    countAcc a (insert_unique now fetch f s).store ≤ max (countAcc a s) 1 := by
  rcases insert_unique_store_cases now fetch f s with h | ⟨h, hacc, habs⟩
  · rw [h]; exact le_max_left _ _
  · rw [h]; unfold countAcc
    rw [List.countP_append]
    by_cases hra : ((insert_unique now fetch f s).record.accession == a) = true
    · have ha : f.accession = a := by rw [← hacc]; exact eq_of_beq hra
      have hzero : s.countP (fun d => d.accession == a) = 0 := by
        rw [List.countP_eq_zero]
        intro d hd hcontra
        exact habs ⟨d, hd, by rw [eq_of_beq hcontra, ha]⟩
      rw [hzero]
      simp [List.countP_cons, hra]
    · have : List.countP (fun d => d.accession == a)
          [(insert_unique now fetch f s).record] = 0 := by
        simp [List.countP_cons, hra]
      rw [this]
      simp only [Nat.add_zero]
      exact le_max_left _ _

theorem countAcc_process_le (now : Nat) (fetch : String → Option String)
    (a : String) :
    ∀ (L : List Filing) (s : List Filing),
      countAcc a (processFilings now fetch L s).1 ≤ max (countAcc a s) 1 := by
  intro L
  induction L with
  | nil => intro s; exact le_max_left _ _
  | cons f rest ih =>
    intro s
    have h1 := ih (insert_unique now fetch f s).store
    have h2 := countAcc_insert_le now fetch f s a
    calc countAcc a (processFilings now fetch (f :: rest) s).1
        = countAcc a (processFilings now fetch rest
            (insert_unique now fetch f s).store).1 := rfl
      _ ≤ max (countAcc a (insert_unique now fetch f s).store) 1 := h1
      _ ≤ max (max (countAcc a s) 1) 1 := max_le_max h2 (le_refl 1)
      _ = max (countAcc a s) 1 := by rw [max_assoc, max_self]

/-! ### Claim theorems: store writer -/

/-- C1: (i) whenever a document with the filing's accession is already in
the store, `insert_unique` leaves the store unchanged and returns false;
(ii) after running the per-record loop twice over the same parsed index
content, with the store retained in between, the number of stored
documents with any given accession is at most `max` of its initial count
and one — so each accession absent from the initial store is inserted at
most once across both runs. -/
theorem C1_at_most_once :
    (∀ (now : Nat) (fetch : String → Option String) (f : Filing)
        (s : List Filing),
      (∃ d ∈ s, d.accession = f.accession) →
      (insert_unique now fetch f s).store = s ∧
        (insert_unique now fetch f s).inserted = false) ∧
    (∀ (now : Nat) (fetch : String → Option String) (L : List Filing)
        (s : List Filing) (a : String),
      countAcc a (processFilings now fetch L
          (processFilings now fetch L s).1).1 ≤ max (countAcc a s) 1) := by
  constructor
  · intro now fetch f s h
    rw [insert_unique_dup now fetch f s h]
    exact ⟨rfl, rfl⟩
  · intro now fetch L s a
    have h1 := countAcc_process_le now fetch a L (processFilings now fetch L s).1
    have h2 := countAcc_process_le now fetch a L s
    calc countAcc a (processFilings now fetch L (processFilings now fetch L s).1).1
        ≤ max (countAcc a (processFilings now fetch L s).1) 1 := h1
      _ ≤ max (max (countAcc a s) 1) 1 := max_le_max h2 (le_refl 1)
      _ = max (countAcc a s) 1 := by rw [max_assoc, max_self]

/-- C1 witness: a duplicate accession leaves a concrete one-document
store untouched and reports false. -/
theorem C1_witness :
    (insert_unique 3 (fun _ => some "BODY") testFiling [testFiling]).store =
      [testFiling] ∧
    (insert_unique 3 (fun _ => some "BODY") testFiling [testFiling]).inserted =
      false :=
  C1_at_most_once.1 3 (fun _ => some "BODY") testFiling [testFiling]
    ⟨testFiling, by simp, rfl⟩

/-- C2 (counterexample to the claim as stated): with an empty store, a
text fetch that succeeds but returns the empty string (as a status-200
response with an empty body does) leads `insert_unique` to persist
nothing and return false, contradicting branch (c) of the claim. -/
theorem C2_counterexample :
    (fun _ : String => some "") testFiling.file_url = some "" ∧
    (insert_unique 0 (fun _ => some "") testFiling []).inserted = false ∧
    (insert_unique 0 (fun _ => some "") testFiling []).store = [] := by
  refine ⟨rfl, by decide, by decide⟩

/-- C2 (amended): branch contract of `insert_unique` — (a) on a present
accession it returns false with the store unchanged and its trace holds
no text-fetch event; (b) on an absent accession whose fetch yields no
text it returns false and persists nothing; (c) on an absent accession
whose fetch succeeds with a NON-EMPTY body it stamps the ingestion
timestamp, attaches the text, appends the full document to the store,
and returns true (an empty fetched body falls under the no-insert
outcome instead, since the insert is guarded by Python truthiness). -/
theorem C2_branch_contract (now : Nat) (fetch : String → Option String)
    (f : Filing) (s : List Filing) :
    ((∃ d ∈ s, d.accession = f.accession) →
      insert_unique now fetch f s = ⟨f, s, false, [Ev.checkedDup f.accession]⟩ ∧
      ∀ u, Ev.fetchedText u ∉ (insert_unique now fetch f s).trace) ∧
    ((¬ ∃ d ∈ s, d.accession = f.accession) → fetch f.file_url = none →
      insert_unique now fetch f s =
        ⟨{ f with ingested_at := some now }, s, false,
         [Ev.checkedDup f.accession, Ev.stamped now,
          Ev.fetchedText f.file_url]⟩) ∧
    ((¬ ∃ d ∈ s, d.accession = f.accession) →
      ∀ t, fetch f.file_url = some t → t ≠ "" →
      insert_unique now fetch f s =
        ⟨{ f with ingested_at := some now, raw_text := some t },
         s ++ [{ f with ingested_at := some now, raw_text := some t }], true,
         [Ev.checkedDup f.accession, Ev.stamped now,
          Ev.fetchedText f.file_url, Ev.insertedDoc f.accession]⟩) := by
  refine ⟨?_, ?_, ?_⟩
  · intro h
    rw [insert_unique_dup now fetch f s h]
    exact ⟨rfl, by simp⟩
  · intro h hf
    exact insert_unique_absent_none now fetch f s h hf
  · intro h t hf ht
    exact insert_unique_absent_text now fetch f s t h hf ht

/-- C2 witness: the failed-fetch branch on a concrete filing with an
empty store — nothing persisted, false returned. -/
theorem C2_witness :
    insert_unique 7 (fun _ => none) testFiling [] =
      ⟨{ testFiling with ingested_at := some 7 }, [], false,
       [Ev.checkedDup testFiling.accession, Ev.stamped 7,
        Ev.fetchedText testFiling.file_url]⟩ :=
  (C2_branch_contract 7 (fun _ => none) testFiling []).2.1 (by simp) rfl

/-- C9: when the accession is absent, `insert_unique` mutates the filing
record in place — `ingested_at` is set to the clock value sampled before
the text fetch is attempted (the stamp event strictly precedes the fetch
event in the call's trace), it is set even when the fetch fails and
false is returned, and every other pre-existing field of the record is
left unchanged (on the no-text path, `raw_text` included). -/
theorem C9_inplace_mutation (now : Nat) (fetch : String → Option String)
    (f : Filing) (s : List Filing)
    (h : ¬ ∃ d ∈ s, d.accession = f.accession) :
    (insert_unique now fetch f s).record.ingested_at = some now ∧
    (insert_unique now fetch f s).record.cik = f.cik ∧
    (insert_unique now fetch f s).record.company = f.company ∧
    (insert_unique now fetch f s).record.form_type = f.form_type ∧
    (insert_unique now fetch f s).record.date_filed = f.date_filed ∧
    (insert_unique now fetch f s).record.accession = f.accession ∧
    (insert_unique now fetch f s).record.file_url = f.file_url ∧
    ((fetch f.file_url = none ∨ fetch f.file_url = some "") →
      (insert_unique now fetch f s).inserted = false ∧
      (insert_unique now fetch f s).record.raw_text = f.raw_text) ∧
    (insert_unique now fetch f s).trace[1]? = some (Ev.stamped now) ∧
    (insert_unique now fetch f s).trace[2]? = some (Ev.fetchedText f.file_url) := by
  cases hf : fetch f.file_url with
  | none =>
    rw [insert_unique_absent_none now fetch f s h hf]
    simp
  | some t =>
    by_cases ht : t = ""
    · subst ht
      rw [insert_unique_absent_empty now fetch f s h hf]
      simp
    · rw [insert_unique_absent_text now fetch f s t h hf ht]
      refine ⟨rfl, rfl, rfl, rfl, rfl, rfl, rfl, ?_, rfl, rfl⟩
      intro hc
      rcases hc with hc | hc
      · exact absurd hc (by simp)
      · exact absurd (Option.some.inj hc) ht

/-- C9 witness: a failing fetch on an empty store — the record comes
back stamped with the pre-fetch clock value, all other fields intact. -/
theorem C9_witness :
    (insert_unique 7 (fun _ => none) testFiling []).record.ingested_at =
      some 7 ∧
    (insert_unique 7 (fun _ => none) testFiling []).record.cik =
      testFiling.cik ∧
    (insert_unique 7 (fun _ => none) testFiling []).record.company =
      testFiling.company ∧
    (insert_unique 7 (fun _ => none) testFiling []).record.form_type =
      testFiling.form_type ∧
    (insert_unique 7 (fun _ => none) testFiling []).record.date_filed =
      testFiling.date_filed ∧
    (insert_unique 7 (fun _ => none) testFiling []).record.accession =
      testFiling.accession ∧
    (insert_unique 7 (fun _ => none) testFiling []).record.file_url =
      testFiling.file_url ∧
    (((fun _ : String => (none : Option String)) testFiling.file_url = none ∨
        (fun _ : String => (none : Option String)) testFiling.file_url =
          some "") →
      (insert_unique 7 (fun _ => none) testFiling []).inserted = false ∧
      (insert_unique 7 (fun _ => none) testFiling []).record.raw_text =
        testFiling.raw_text) ∧
    (insert_unique 7 (fun _ => none) testFiling []).trace[1]? =
      some (Ev.stamped 7) ∧
    (insert_unique 7 (fun _ => none) testFiling []).trace[2]? =
      some (Ev.fetchedText testFiling.file_url) :=
  C9_inplace_mutation 7 (fun _ => none) testFiling [] (by simp)

/-- C10: an empty fetched body is treated as a fetch failure — a
status-200 response with an empty body comes back from
`fetch_filing_text` as `some ""`, and for a not-yet-seen record whose
fetch oracle yields `some ""`, `insert_unique` inserts no document and
returns false, because the insert is guarded by the truthiness of the
text rather than by fetch success. -/
theorem C10_empty_text_no_insert (now : Nat) (fetch : String → Option String)
    (f : Filing) (s : List Filing)
    (habs : ¬ ∃ d ∈ s, d.accession = f.accession)
    (hempty : fetch f.file_url = some "") :
    fetch_filing_text (HttpResult.resp 200 "") = some "" ∧
    (insert_unique now fetch f s).inserted = false ∧
    (insert_unique now fetch f s).store = s := by
  rw [insert_unique_absent_empty now fetch f s habs hempty]
  exact ⟨rfl, rfl, rfl⟩

/-- C10 witness: concrete empty-body fetch on an empty store. -/
theorem C10_witness :
    fetch_filing_text (HttpResult.resp 200 "") = some "" ∧
    (insert_unique 7 (fun _ => some "") testFiling []).inserted = false ∧
    (insert_unique 7 (fun _ => some "") testFiling []).store = [] :=
  C10_empty_text_no_insert 7 (fun _ => some "") testFiling [] (by simp) rfl

/-! ### Claim theorems: fetcher and driver -/

/-- C6: `download_gz` raises exactly when the HTTP status is not 200;
on the raising path the destination file is left untouched (the
exception fires before the file is opened), and a failing download
aborts the run before parsing — `main` returns with the store unchanged,
zero insertions, and the failure logged. -/
theorem C6_download_raises_iff :
    (∀ (resp : HttpResp) (dest : Option (List Nat)),
      (∃ e, (download_gz resp dest).1 = Except.error e) ↔ resp.status ≠ 200) ∧
    (∀ (resp : HttpResp) (dest : Option (List Nat)),
      resp.status ≠ 200 → (download_gz resp dest).2 = dest) ∧
    (∀ (env : Env) (s : List Filing),
      env.idxResp.status ≠ 200 →
      main env s = (s, 0,
        some ("Download failed with status " ++ toString env.idxResp.status))) := by
  refine ⟨?_, ?_, ?_⟩
  · intro resp dest
    constructor
    · intro ⟨e, he⟩
      intro h200
      rw [download_gz, if_neg (by simp [h200])] at he
      exact Except.noConfusion he
    · intro h200
      exact ⟨_, by rw [download_gz, if_pos h200]⟩
  · intro resp dest h200
    rw [download_gz, if_pos h200]
  · intro env s h200
    rw [main, pipelineBody, download_gz, if_pos h200]

/-- C6 witness: a 404 on the index download leaves a concrete run with
an unchanged (empty) store, no insertions, and the logged message. -/
theorem C6_witness :
    main envDown404 [] =
      ([], 0, some ("Download failed with status " ++ toString (404 : Nat))) :=
  C6_download_raises_iff.2.2 envDown404 [] (by decide)

/-- C7: `fetch_filing_text` is a total function — it returns the body on
the (only) success status 200, `none` on every other status, and `none`
on a transport-level exception; consequently, once the archive stages
succeed, `main` finishes with no fatal log entry no matter what every
per-record text fetch returns. -/
theorem C7_text_fetch_total :
    (∀ body : String, fetch_filing_text (HttpResult.resp 200 body) = some body) ∧
    (∀ (st : Nat) (body : String), st ≠ 200 →
      fetch_filing_text (HttpResult.resp st body) = none) ∧
    (∀ msg : String, fetch_filing_text (HttpResult.exn msg) = none) ∧
    (∀ (env : Env) (s : List Filing) (lines : List String),
      env.idxResp.status = 200 →
      env.gunzip (some env.idxResp.chunks.flatten) = Except.ok lines →
      (main env s).2.2 = none) := by
  refine ⟨fun body => rfl, ?_, fun msg => rfl, ?_⟩
  · intro st body hst
    simp [fetch_filing_text, hst]
  · intro env s lines h200 hgz
    simp [main, pipelineBody, download_gz, h200, hgz]

/-- C7 witness: a run whose every text fetch raises a transport
exception still ends with no fatal log entry. -/
theorem C7_witness : (main envOk []).2.2 = none :=
  C7_text_fetch_total.2.2.2 envOk []
    ["0001|Acme Co|10-K|2024-01-05|edgar/data/1/acme-10k.txt"] rfl rfl

/-- C8: every exception escaping the pipeline sequence is caught by the
driver's top-level handler — for every environment and store, `main`
returns normally: either the pipeline body raised and `main` returns the
untouched store with zero insertions and the suppressed, logged error,
or the body succeeded and `main` returns its result with no fatal
entry. -/
theorem C8_top_level_suppression (env : Env) (s : List Filing) :
    (∃ e, pipelineBody env s = Except.error e ∧ main env s = (s, 0, some e)) ∨
    (∃ s2 c, pipelineBody env s = Except.ok (s2, c) ∧
      main env s = (s2, c, none)) := by
  cases h : pipelineBody env s with
  | ok r =>
    obtain ⟨s2, c⟩ := r
    exact Or.inr ⟨s2, c, rfl, by rw [main, h]⟩
  | error e => exact Or.inl ⟨e, rfl, by rw [main, h]⟩

end EdgarIngest
